import Mathlib

/-!
Verification of `src/ext/ausock/ausock.c` — a baresip audio module that
bridges fixed-format PCM audio frames between the host media pipeline and a
single external peer over a Unix stream socket.

The development is a shallow embedding of the C source:

* The Connection Slot (`client_fd`, guarded by `sock_mtx`) is modelled as an
  `Int` (the C sentinel `-1` means "empty").  Each slot operation returns,
  besides its result and the new slot value, the list of file descriptors it
  passed to `close()`, so close-exactly-once properties are directly visible.
* The critical section of `get_client` (lines 134–144 of the source) is
  `finish_accept`; `get_client_run` composes the first locked read, the
  non-blocking `accept`, and that critical section, with the slot value at
  the second lock supplied separately so that interference from the other
  loop thread between the two locked sections can be expressed.
* One iteration of `src_thread`'s while-body and of `play_thread`'s
  while-body are `src_iter` and `play_iter`.  Each takes an environment (the
  fd returned by `get_client`, the clock readings, the schedule of `read`/
  `write`/`poll` outcomes the OS would deliver) and returns the observable
  events of the iteration in program order, the delivered frame, the updated
  timing cursor and the time spent blocked.  `none` models an iteration that
  never completes because a blocking `read`/`write` never returns.
* Buffers are byte lists (`List Nat`); `nbytes = sampc * sizeof(int16_t)
  = sampc * 2` as in the source.  Times are `Nat` microseconds.
-/

/- ------------------------------------------------------------------ -/
/- Connection Slot: `get_client` / `drop_client` (ausock.c 107–155)    -/
/- ------------------------------------------------------------------ -/

/-- Critical section of `get_client` (ausock.c lines 134–144), entered after
`accept` returned the fresh descriptor `fd`.  `c` is the value of `client_fd`
at the moment the mutex is taken.  Returns `(value returned by get_client,
new client_fd, fds closed)`: if a client is already present (race lost) the
fresh fd is closed and the held fd is returned; otherwise the fresh fd is
stored and returned. -/
def finish_accept (fd : Int) (c : Int) : Int × Int × List Int :=
  if 0 ≤ c then (c, c, [fd]) else (fd, fd, [])

/-- `drop_client` (ausock.c lines 147–155): under the mutex, if `client_fd`
equals `fd` then `close(fd)` and clear the slot, else do nothing.  Returns
`(new client_fd, fds closed)`. -/
def drop_client (fd : Int) (c : Int) : Int × List Int :=
  if c = fd then (-1, [fd]) else (c, [])

/-- One run of `get_client` (ausock.c lines 107–145).  `c0` is `client_fd` at
the first locked read (line 112); `pending` is the result of the non-blocking
`accept` (`none` = no pending connection, i.e. `accept` returned `-1`);
`c1` is `client_fd` at the second lock (line 134), which may differ from `c0`
because the other loop thread can run between the two critical sections.
Returns `(value returned, client_fd after the call, fds closed)`. -/
def get_client_run (c0 : Int) (pending : Option Int) (c1 : Int) :
    Int × Int × List Int :=
  if 0 ≤ c0 then (c0, c0, [])
  else
    match pending with
    | none => (-1, c1, [])
    | some fd => finish_accept fd c1

/-- `get_client` in an interference-free execution: the slot value seen at
the second lock is the one seen at the first. -/
def get_client (pending : Option Int) (c : Int) : Int × Int × List Int :=
  get_client_run c pending c

/- ------------------------------------------------------------------ -/
/- Clock discipline (ausock.c 197–201, 229–234, 334–339)               -/
/- ------------------------------------------------------------------ -/

/-- Timeout handed to `poll` in `src_thread` (ausock.c lines 198–201), in
milliseconds: the time remaining from `now` to the deadline `next_frame`,
rounded down to whole milliseconds, and `0` when the deadline has passed. -/
def src_timeout_ms (next_frame now : Nat) : Nat :=
  if now < next_frame then (next_frame - now) / 1000 else 0

/-- Timing-cursor update shared by both loops (ausock.c lines 229–234 and
334–339): `next_frame += ptime_us`, then if that deadline is still in the
future keep it, otherwise reset the cursor to `now`. -/
def step_cursor (ptime_us next_frame now : Nat) : Nat :=
  if now < next_frame + ptime_us then next_frame + ptime_us else now

/-- Duration of the `usleep` call in the pacing step: the remaining time to
the advanced deadline, `0` on overrun (the source skips `usleep` then). -/
def sleep_amount (ptime_us next_frame now : Nat) : Nat :=
  next_frame + ptime_us - now

/-- Cursor values produced by successive iterations of either loop, given the
per-iteration clock readings `nows`. -/
def cursor_trace (ptime_us c : Nat) : List Nat → List Nat
  | [] => []
  | now :: rest =>
      step_cursor ptime_us c now ::
        cursor_trace ptime_us (step_cursor ptime_us c now) rest

/- ------------------------------------------------------------------ -/
/- Loop iterations                                                     -/
/- ------------------------------------------------------------------ -/

/-- Observable events of one loop iteration, in program order. -/
inductive Ev
  | getClient (fd : Int)
  | poll (timeout_ms : Nat)
  | readRet (n : Nat)
  | writeRet (n : Nat)
  | drop (fd : Int)
  | sleep (us : Nat)
  | rh (frame : List Nat)
  | wh (frame : List Nat)
  | errh
deriving DecidableEq

def isRh : Ev → Bool
  | Ev.rh _ => true
  | _ => false

def isWh : Ev → Bool
  | Ev.wh _ => true
  | _ => false

def isWrite : Ev → Bool
  | Ev.writeRet _ => true
  | _ => false

def isRead : Ev → Bool
  | Ev.readRet _ => true
  | _ => false

def isDropEv : Ev → Bool
  | Ev.drop _ => true
  | _ => false

/-- `true` when no `writeRet` event occurs after the first `drop` event:
once the outbound loop drops the peer it writes nothing more this
iteration. -/
def afterDropNoWrite : List Ev → Bool
  | [] => true
  | Ev.drop _ :: rest => rest.all fun e => !(isWrite e)
  | _ :: rest => afterDropNoWrite rest

/-- Per-instance state fields of `struct ausrc_st` / `struct auplay_st`
used by the loop bodies. -/
structure LoopSt where
  sampc : Nat
  ptime : Nat
deriving DecidableEq

/-- Result of one `read(fd, buf+off, nbytes-off)` call: how long the call
blocked (µs) and the bytes it delivered (`none`, or delivered bytes `[]`,
model a return value `n ≤ 0`, i.e. error or EOF). -/
structure ReadEv where
  delay : Nat
  res : Option (List Nat)
deriving DecidableEq

/-- Overwrite `data.length` bytes of `buf` starting at offset `off`. -/
def setBytes (buf : List Nat) (off : Nat) (data : List Nat) : List Nat :=
  buf.take off ++ data ++ buf.drop (off + data.length)

structure ReadOut where
  events : List Ev
  buf : List Nat
  dropped : Bool
  time : Nat
deriving DecidableEq

/-- The partial-read retry loop of `src_thread` (ausock.c lines 206–218):
`while (off < nbytes)` read; on `n ≤ 0` call `drop_client`, zero the
remainder of the frame and break; otherwise advance `off`.  `sched` is the
sequence of outcomes successive `read` calls would have; if it is exhausted
while the frame is incomplete the next blocking `read` never returns and the
loop never terminates (`none`).  A scheduled chunk longer than the `read`
request is truncated to the request, as the kernel would. -/
def read_loop (fd : Int) (nbytes : Nat) :
    List ReadEv → List Nat → Nat → Option ReadOut
  | [], buf, off =>
    if nbytes ≤ off then some ⟨[], buf, false, 0⟩ else none
  | ev :: rest, buf, off =>
    if nbytes ≤ off then some ⟨[], buf, false, 0⟩
    else
      if ((ev.res.getD []).take (nbytes - off)).length = 0 then
        some ⟨[Ev.readRet 0, Ev.drop fd],
              buf.take off ++ List.replicate (nbytes - off) 0, true, ev.delay⟩
      else
        match read_loop fd nbytes rest
            (setBytes buf off ((ev.res.getD []).take (nbytes - off)))
            (off + ((ev.res.getD []).take (nbytes - off)).length) with
        | none => none
        | some ro =>
            some ⟨Ev.readRet ((ev.res.getD []).take (nbytes - off)).length ::
                    ro.events,
                  ro.buf, ro.dropped, ev.delay + ro.time⟩

/-- `poll(&pfd, 1, timeout_ms)` with `POLLIN` (ausock.c line 202):
`dataAfter` is the time (µs from the call) at which data first becomes
readable (`none` = never during this window).  Returns (data became ready
within the timeout, time spent blocked in `poll`). -/
def poll_model (timeout_ms : Nat) (dataAfter : Option Nat) : Bool × Nat :=
  match dataAfter with
  | none => (false, timeout_ms * 1000)
  | some t => if t ≤ timeout_ms * 1000 then (true, t) else (false, timeout_ms * 1000)

/-- Environment of one `src_thread` iteration: prior buffer contents (the
frame buffer is reused across iterations), the timing cursor at entry, the
fd returned by `get_client` (`-1` = no client), the monotonic clock at the
timeout computation (line 197) and at the pacing step (line 230), when the
peer's data becomes readable, and the outcomes of the blocking reads. -/
structure SrcEnv where
  buf0 : List Nat
  next_frame : Nat
  fd : Int
  now1 : Nat
  dataAfter : Option Nat
  reads : List ReadEv
  now2 : Nat
deriving DecidableEq

structure SrcIterOut where
  events : List Ev
  buf : List Nat
  dropped : Bool
  cursor : Nat
  pollWait : Nat
  blockedRead : Nat
deriving DecidableEq

/-- One iteration of the `src_thread` while-body (ausock.c lines 185–239).
Control paths: no client → whole frame zeroed; client but `poll` yields no
data in the window → whole frame zeroed; data ready → the partial-read retry
loop fills the frame (zero-padding the tail and dropping the client on
error/EOF).  In every completed path the cursor is advanced / reset, the
remaining time is slept, and `rh` is invoked once with the frame. -/
def src_iter (st : LoopSt) (env : SrcEnv) : Option SrcIterOut :=
  if 0 ≤ env.fd then
    if (poll_model (src_timeout_ms env.next_frame env.now1) env.dataAfter).1 then
      match read_loop env.fd (st.sampc * 2) env.reads env.buf0 0 with
      | none => none
      | some ro =>
          some { events := [Ev.getClient env.fd,
                            Ev.poll (src_timeout_ms env.next_frame env.now1)] ++
                           ro.events ++
                           [Ev.sleep (sleep_amount (st.ptime * 1000)
                                        env.next_frame env.now2),
                            Ev.rh ro.buf],
                 buf := ro.buf,
                 dropped := ro.dropped,
                 cursor := step_cursor (st.ptime * 1000) env.next_frame env.now2,
                 pollWait :=
                   (poll_model (src_timeout_ms env.next_frame env.now1)
                      env.dataAfter).2,
                 blockedRead := ro.time }
    else
      some { events := [Ev.getClient env.fd,
                        Ev.poll (src_timeout_ms env.next_frame env.now1),
                        Ev.sleep (sleep_amount (st.ptime * 1000)
                                    env.next_frame env.now2),
                        Ev.rh (List.replicate (st.sampc * 2) 0)],
             buf := List.replicate (st.sampc * 2) 0,
             dropped := false,
             cursor := step_cursor (st.ptime * 1000) env.next_frame env.now2,
             pollWait :=
               (poll_model (src_timeout_ms env.next_frame env.now1)
                  env.dataAfter).2,
             blockedRead := 0 }
  else
    some { events := [Ev.getClient env.fd,
                      Ev.sleep (sleep_amount (st.ptime * 1000)
                                  env.next_frame env.now2),
                      Ev.rh (List.replicate (st.sampc * 2) 0)],
           buf := List.replicate (st.sampc * 2) 0,
           dropped := false,
           cursor := step_cursor (st.ptime * 1000) env.next_frame env.now2,
           pollWait := 0,
           blockedRead := 0 }

/-- Environment of one `play_thread` iteration: the frame the write handler
`wh` produced into the buffer, the fd returned by `get_client`, the return
values successive `write` calls would have (a value `≤ 0` is an error), the
timing cursor at entry and the clock at the pacing step. -/
structure PlayEnv where
  pulled : List Nat
  fd : Int
  writes : List Int
  next_frame : Nat
  now2 : Nat
deriving DecidableEq

structure PlayIterOut where
  events : List Ev
  dropped : Bool
  cursor : Nat
deriving DecidableEq

/-- The partial-write retry loop of `play_thread` (ausock.c lines 321–330):
`while (off < nbytes)` write; on `n ≤ 0` call `drop_client` and break;
otherwise advance `off`.  A scheduled return value larger than the remaining
byte count is truncated, as the kernel would.  `none` models a blocking
`write` that never returns (schedule exhausted). -/
def write_loop (fd : Int) (nbytes : Nat) :
    List Int → Nat → Option (List Ev × Bool)
  | [], off =>
    if nbytes ≤ off then some ([], false) else none
  | n :: rest, off =>
    if nbytes ≤ off then some ([], false)
    else if n ≤ 0 then some ([Ev.writeRet 0, Ev.drop fd], true)
    else
      match write_loop fd nbytes rest (off + min n.toNat (nbytes - off)) with
      | none => none
      | some (evs, dr) =>
          some (Ev.writeRet (min n.toNat (nbytes - off)) :: evs, dr)

/-- One iteration of the `play_thread` while-body (ausock.c lines 306–340):
`wh` is invoked first to pull one frame, then the peer is looked up; if
present the frame is written (dropping the peer and abandoning the frame on
error), if absent the frame is discarded; finally the cursor is advanced /
reset and the remaining time is slept. -/
def play_iter (st : LoopSt) (env : PlayEnv) : Option PlayIterOut :=
  match (if 0 ≤ env.fd then write_loop env.fd (st.sampc * 2) env.writes 0
         else some ([], false)) with
  | none => none
  | some (evs, dr) =>
      some { events := Ev.wh env.pulled :: Ev.getClient env.fd :: evs ++
                       [Ev.sleep (sleep_amount (st.ptime * 1000)
                                    env.next_frame env.now2)],
             dropped := dr,
             cursor := step_cursor (st.ptime * 1000) env.next_frame env.now2 }

/-- Samples per frame computed by `src_alloc` and `play_alloc` (ausock.c
lines 271 and 371): `prm->srate * prm->ch * prm->ptime / 1000`, C integer
division. -/
def alloc_sampc (srate ch ptime : Nat) : Nat :=
  srate * ch * ptime / 1000

/- ------------------------------------------------------------------ -/
/- Claim theorems                                                      -/
/- ------------------------------------------------------------------ -/

/-- C4: when two callers race through acquire-or-accept and both obtain a
newly accepted channel (`a` and `b`, distinct, both valid), the winner's
critical section stores `a` and closes nothing, and the loser's critical
section returns the held `a`, leaves `a` stored, and closes exactly its own
duplicate `b`: exactly one handle ends up in the Connection Slot, the
loser's duplicate is closed exactly once, and the retained handle is never
closed. -/
theorem race_single_owner (a b : Int) (ha : 0 ≤ a) (hb : 0 ≤ b)
    (hne : a ≠ b) :
    get_client_run (-1) (some a) (-1) = (a, a, []) ∧
    get_client_run (-1) (some b) a = (a, a, [b]) ∧
    a ∉ [b] := by
  refine ⟨?_, ?_, by simpa using hne⟩
  · simp [get_client_run, finish_accept]
  · simp [get_client_run, finish_accept, ha]

theorem race_single_owner_witness :
    get_client_run (-1) (some 3) (-1) = (3, 3, []) ∧
    get_client_run (-1) (some 4) 3 = (3, 3, [4]) ∧
    (3 : Int) ∉ [(4 : Int)] :=
  race_single_owner 3 4 (by decide) (by decide) (by decide)

/-- C5: `drop_client fd` closes `fd` and clears the slot exactly when the
slot currently holds `fd`; for a handle not currently held it closes nothing
and leaves the slot (any unrelated held handle included) unchanged, and a
repeated drop of the same handle is a no-op that closes nothing. -/
theorem drop_client_spec (fd c : Int) (hfd : 0 ≤ fd) :
    (c = fd → drop_client fd c = (-1, [fd])) ∧
    (c ≠ fd → drop_client fd c = (c, [])) ∧
    drop_client fd (drop_client fd c).1 = ((drop_client fd c).1, []) := by
  unfold drop_client
  by_cases h : c = fd <;> simp [h] <;> omega

theorem drop_client_spec_witness :
    drop_client 5 5 = (-1, [5]) ∧
    drop_client 5 3 = (3, []) ∧
    drop_client 5 (drop_client 5 5).1 = ((drop_client 5 5).1, []) :=
  ⟨(drop_client_spec 5 5 (by decide)).1 rfl,
   (drop_client_spec 5 3 (by decide)).2.1 (by decide),
   (drop_client_spec 5 5 (by decide)).2.2⟩

/-- C10: `get_client` returns either `-1` or the Connection Slot's held
handle as of the call's final critical section: a non-negative return value
is the slot's stored fd at return, and is never a descriptor this call
closed (in particular, a racing loser returns the already-held handle, not
the duplicate it just closed).  `c0`/`c1` are the slot values at the first
and second locked sections, `pending` the freshly accepted fd, which is
valid and distinct from any held fd. -/
theorem get_client_returns_current (c0 c1 : Int) (pending : Option Int)
    (hfresh : ∀ fd, pending = some fd → 0 ≤ fd ∧ fd ≠ c1) :
    (get_client_run c0 pending c1).1 = -1 ∨
    (0 ≤ (get_client_run c0 pending c1).1 ∧
     (get_client_run c0 pending c1).1 = (get_client_run c0 pending c1).2.1 ∧
     (get_client_run c0 pending c1).1 ∉ (get_client_run c0 pending c1).2.2) := by
  unfold get_client_run
  by_cases h0 : 0 ≤ c0
  · exact Or.inr (by simp [h0])
  · cases pending with
    | none => simp [h0]
    | some fd =>
        obtain ⟨hfd, hne⟩ := hfresh fd rfl
        unfold finish_accept
        by_cases h1 : 0 ≤ c1
        · have hcf : ¬ c1 = fd := fun h => hne h.symm
          exact Or.inr (by simp [h0, h1, hcf])
        · exact Or.inr (by simp [h0, h1, hfd])

theorem get_client_returns_current_witness :
    (get_client_run (-1) (some 7) 3).1 = -1 ∨
    (0 ≤ (get_client_run (-1) (some 7) 3).1 ∧
     (get_client_run (-1) (some 7) 3).1 = (get_client_run (-1) (some 7) 3).2.1 ∧
     (get_client_run (-1) (some 7) 3).1 ∉ (get_client_run (-1) (some 7) 3).2.2) :=
  get_client_returns_current (-1) 3 (some 7)
    (by intro fd h; cases h; exact ⟨by decide, by decide⟩)

/-- Each cursor update can only move the cursor forward. -/
theorem step_cursor_mono (p c now : Nat) : c ≤ step_cursor p c now := by
  unfold step_cursor
  split <;> omega

/-- Consecutive cursor values over any run of iterations form a
non-decreasing chain. -/
theorem cursor_trace_chain (p c : Nat) (nows : List Nat) :
    List.Chain (fun x y => x ≤ y) c (cursor_trace p c nows) := by
  induction nows generalizing c with
  | nil => exact List.Chain.nil
  | cons now rest ih =>
      exact List.Chain.cons (step_cursor_mono p c now) (ih _)

/-- C3: the timing-cursor update of both loops sets the cursor to exactly
its previous value plus one frame period when that advanced value is not in
the past, and resets it to the current monotonic time otherwise; over any
run of iterations the successive cursor values are monotonically
non-decreasing. -/
theorem timing_cursor_spec (p c now : Nat) :
    (now ≤ c + p → step_cursor p c now = c + p) ∧
    (c + p < now → step_cursor p c now = now) ∧
    c ≤ step_cursor p c now ∧
    (∀ nows : List Nat,
       List.Chain (fun x y => x ≤ y) c (cursor_trace p c nows)) := by
  refine ⟨?_, ?_, step_cursor_mono p c now, cursor_trace_chain p c⟩ <;>
    · intro h
      unfold step_cursor
      split <;> omega

theorem timing_cursor_spec_witness :
    step_cursor 20000 0 5 = 0 + 20000 ∧
    step_cursor 20000 0 50000 = 50000 ∧
    List.Chain (fun x y => x ≤ y) 0 (cursor_trace 20000 0 [5, 90000, 95000]) :=
  ⟨(timing_cursor_spec 20000 0 5).1 (by decide),
   (timing_cursor_spec 20000 0 50000).2.1 (by decide),
   (timing_cursor_spec 20000 0 5).2.2.2 [5, 90000, 95000]⟩

/-- C6: in every completed inbound-loop iteration with a peer present, the
timeout handed to `poll` is exactly the time remaining from the current
monotonic time to the next frame deadline, expressed in the whole
milliseconds `poll` takes (zero when the deadline has passed), and therefore
never longer than that remaining time. -/
theorem src_timeout_spec (st : LoopSt) (env : SrcEnv) (out : SrcIterOut)
    (h : src_iter st env = some out) (hfd : 0 ≤ env.fd) :
    Ev.poll (src_timeout_ms env.next_frame env.now1) ∈ out.events ∧
    src_timeout_ms env.next_frame env.now1 =
      (env.next_frame - env.now1) / 1000 ∧
    src_timeout_ms env.next_frame env.now1 * 1000 ≤
      env.next_frame - env.now1 ∧
    (env.next_frame ≤ env.now1 → src_timeout_ms env.next_frame env.now1 = 0) := by
  refine ⟨?_, ?_, ?_, ?_⟩
  · unfold src_iter at h
    rw [if_pos hfd] at h
    split at h
    · cases hr : read_loop env.fd (st.sampc * 2) env.reads env.buf0 0 with
      | none => rw [hr] at h; exact absurd h (by simp)
      | some ro =>
          rw [hr] at h
          cases h
          simp
    · cases h
      simp
  · unfold src_timeout_ms
    split <;> omega
  · unfold src_timeout_ms
    split
    · exact Nat.div_mul_le_self _ _
    · omega
  · intro hle
    unfold src_timeout_ms
    split <;> omega

theorem src_timeout_spec_witness :
    (src_iter ⟨1, 20⟩ ⟨[0, 0], 20000, 0, 0, none, [], 0⟩).map
      (fun o => decide (Ev.poll (src_timeout_ms 20000 0) ∈ o.events)) =
      some true := by
  cases h : src_iter ⟨1, 20⟩ ⟨[0, 0], 20000, 0, 0, none, [], 0⟩ with
  | none => exact absurd h (by decide)
  | some out => simpa using (src_timeout_spec _ _ _ h (by decide)).1

/-- Every event emitted by the partial-read retry loop is a `readRet` or a
`drop`. -/
theorem read_loop_events_shape (fd : Int) (nbytes : Nat) (sched : List ReadEv)
    (buf : List Nat) (off : Nat) (ro : ReadOut)
    (h : read_loop fd nbytes sched buf off = some ro) :
    ro.events.all (fun e => isRead e || isDropEv e) = true := by
  induction sched generalizing buf off ro with
  | nil =>
      unfold read_loop at h
      split at h
      · cases h; simp
      · exact absurd h (by simp)
  | cons ev rest ih =>
      unfold read_loop at h
      split at h
      · cases h; simp
      · split at h
        · cases h; simp [isRead, isDropEv]
        · cases hr : read_loop fd nbytes rest
              (setBytes buf off ((ev.res.getD []).take (nbytes - off)))
              (off + ((ev.res.getD []).take (nbytes - off)).length) with
          | none => rw [hr] at h; exact absurd h (by simp)
          | some ro2 =>
              rw [hr] at h
              cases h
              simpa [isRead] using ih _ _ _ hr

/-- The partial-read retry loop preserves the frame buffer's length. -/
theorem read_loop_length (fd : Int) (nbytes : Nat) (sched : List ReadEv)
    (buf : List Nat) (off : Nat) (ro : ReadOut)
    (hb : buf.length = nbytes) (hoff : off ≤ nbytes)
    (h : read_loop fd nbytes sched buf off = some ro) :
    ro.buf.length = nbytes := by
  induction sched generalizing buf off ro with
  | nil =>
      unfold read_loop at h
      split at h
      · cases h; simpa using hb
      · exact absurd h (by simp)
  | cons ev rest ih =>
      unfold read_loop at h
      split at h
      · cases h; simpa using hb
      · split at h
        · cases h
          simp only [List.length_append, List.length_take, List.length_replicate]
          omega
        · cases hr : read_loop fd nbytes rest
              (setBytes buf off ((ev.res.getD []).take (nbytes - off)))
              (off + ((ev.res.getD []).take (nbytes - off)).length) with
          | none => rw [hr] at h; exact absurd h (by simp)
          | some ro2 =>
              rw [hr] at h
              cases h
              have htk : ((ev.res.getD []).take (nbytes - off)).length ≤
                  nbytes - off := by
                simp only [List.length_take]
                omega
              have hlen : (setBytes buf off
                  ((ev.res.getD []).take (nbytes - off))).length = nbytes := by
                simp only [setBytes, List.length_append, List.length_take,
                  List.length_drop]
                omega
              exact ih _ _ ro2 hlen (by omega) hr

/-- Every event emitted by the partial-write retry loop is a `writeRet` or a
`drop`, and the loop reports a drop exactly when a `drop` event occurs, in
which case the `drop` is its last event. -/
theorem write_loop_events_shape (fd : Int) (nbytes : Nat) (sched : List Int)
    (off : Nat) (evs : List Ev) (dr : Bool)
    (h : write_loop fd nbytes sched off = some (evs, dr)) :
    evs.all (fun e => isWrite e || isDropEv e) = true ∧
    (dr = true ↔ Ev.drop fd ∈ evs) ∧
    (dr = true → evs.getLast? = some (Ev.drop fd)) := by
  induction sched generalizing off evs dr with
  | nil =>
      unfold write_loop at h
      split at h
      · cases h; simp
      · exact absurd h (by simp)
  | cons n rest ih =>
      unfold write_loop at h
      split at h
      · cases h; simp
      · split at h
        · cases h
          refine ⟨by simp [isWrite, isDropEv], by simp, by simp⟩
        · cases hr : write_loop fd nbytes rest
              (off + min n.toNat (nbytes - off)) with
          | none => rw [hr] at h; exact absurd h (by simp)
          | some p =>
              obtain ⟨evs2, dr2⟩ := p
              rw [hr] at h
              cases h
              obtain ⟨h1, h2, h3⟩ := ih _ _ _ hr
              refine ⟨by simpa [isWrite] using h1, ?_, ?_⟩
              · simpa using h2
              · intro hdr
                have hlast := h3 hdr
                cases evs2 with
                | nil => simp at hlast
                | cons x xs => rw [List.getLast?_cons_cons]; exact hlast

/-- A completed `play_thread` iteration pulls one frame via `wh`, checks the
peer, runs the write phase, and sleeps; its events have exactly this
shape. -/
theorem play_iter_shape (st : LoopSt) (env : PlayEnv) (out : PlayIterOut)
    (h : play_iter st env = some out) :
    ∃ evs dr,
      (if 0 ≤ env.fd then write_loop env.fd (st.sampc * 2) env.writes 0
       else some ([], false)) = some (evs, dr) ∧
      out.events = Ev.wh env.pulled :: Ev.getClient env.fd :: evs ++
        [Ev.sleep (sleep_amount (st.ptime * 1000) env.next_frame env.now2)] ∧
      out.dropped = dr := by
  unfold play_iter at h
  cases hw : (if 0 ≤ env.fd then write_loop env.fd (st.sampc * 2) env.writes 0
              else some ([], false)) with
  | none => rw [hw] at h; exact absurd h (by simp)
  | some p =>
      obtain ⟨evs, dr⟩ := p
      rw [hw] at h
      cases h
      exact ⟨evs, dr, rfl, rfl, rfl⟩

/-- A list that contains no `writeRet` event trivially satisfies
`afterDropNoWrite`. -/
theorem afterDropNoWrite_of_all (l : List Ev)
    (h : l.all (fun e => !(isWrite e)) = true) : afterDropNoWrite l = true := by
  induction l with
  | nil => rfl
  | cons e rest ih =>
      rw [List.all_cons] at h
      cases e <;>
        simp_all [afterDropNoWrite]

/-- Appending a write-free tail after the write phase never puts a write
after a drop. -/
theorem write_phase_afterDrop (fd : Int) (nbytes : Nat) (sched : List Int)
    (off : Nat) (evs : List Ev) (dr : Bool) (tail : List Ev)
    (h : write_loop fd nbytes sched off = some (evs, dr))
    (ht : tail.all (fun e => !(isWrite e)) = true) :
    afterDropNoWrite (evs ++ tail) = true := by
  induction sched generalizing off evs dr with
  | nil =>
      unfold write_loop at h
      split at h
      · cases h; simpa using afterDropNoWrite_of_all tail ht
      · exact absurd h (by simp)
  | cons n rest ih =>
      unfold write_loop at h
      split at h
      · cases h; simpa using afterDropNoWrite_of_all tail ht
      · split at h
        · cases h
          simpa [afterDropNoWrite] using ht
        · cases hr : write_loop fd nbytes rest
              (off + min n.toNat (nbytes - off)) with
          | none => rw [hr] at h; exact absurd h (by simp)
          | some p =>
              obtain ⟨evs2, dr2⟩ := p
              rw [hr] at h
              cases h
              simpa [afterDropNoWrite] using ih _ _ _ hr

/-- C2: in every completed inbound-loop iteration in which no peer handle
exists, or in which the bounded wait for readability expires without data,
the frame delivered to the host callback is entirely zero bytes of the
configured frame length (`sampc` zero S16LE samples). -/
theorem silence_substitution (st : LoopSt) (env : SrcEnv) (out : SrcIterOut)
    (h : src_iter st env = some out)
    (hpath : env.fd < 0 ∨
      (poll_model (src_timeout_ms env.next_frame env.now1) env.dataAfter).1 =
        false) :
    out.buf = List.replicate (st.sampc * 2) 0 ∧
    Ev.rh (List.replicate (st.sampc * 2) 0) ∈ out.events := by
  unfold src_iter at h
  split at h
  · rename_i hfd
    split at h
    · rename_i hpoll
      rcases hpath with hlt | hfalse
      · omega
      · rw [hfalse] at hpoll; exact absurd hpoll (by simp)
    · cases h
      exact ⟨rfl, by simp⟩
  · cases h
    exact ⟨rfl, by simp⟩

theorem silence_substitution_witness :
    (src_iter ⟨2, 20⟩ ⟨[7, 7, 7, 7], 20000, -1, 0, none, [], 5000⟩).map
      (fun o => o.buf) = some (List.replicate 4 0) := by
  cases h : src_iter ⟨2, 20⟩ ⟨[7, 7, 7, 7], 20000, -1, 0, none, [], 5000⟩ with
  | none => exact absurd h (by decide)
  | some out =>
      simpa using (silence_substitution _ _ _ h (Or.inl (by decide))).1

/-- The read phase emits no host-callback events. -/
theorem read_loop_no_callbacks (fd : Int) (nbytes : Nat) (sched : List ReadEv)
    (buf : List Nat) (off : Nat) (ro : ReadOut)
    (h : read_loop fd nbytes sched buf off = some ro) :
    ro.events.countP isRh = 0 ∧ ro.events.countP isWh = 0 ∧
    Ev.errh ∉ ro.events := by
  have hall := read_loop_events_shape fd nbytes sched buf off ro h
  rw [List.all_eq_true] at hall
  refine ⟨?_, ?_, ?_⟩
  · rw [List.countP_eq_zero]
    intro a ha
    have := hall a ha
    cases a <;> simp_all [isRead, isDropEv, isRh]
  · rw [List.countP_eq_zero]
    intro a ha
    have := hall a ha
    cases a <;> simp_all [isRead, isDropEv, isWh]
  · intro hmem
    have := hall _ hmem
    simp [isRead, isDropEv] at this

/-- The write phase emits no host-callback events. -/
theorem write_loop_no_callbacks (fd : Int) (nbytes : Nat) (sched : List Int)
    (off : Nat) (evs : List Ev) (dr : Bool)
    (h : write_loop fd nbytes sched off = some (evs, dr)) :
    evs.countP isRh = 0 ∧ evs.countP isWh = 0 ∧ Ev.errh ∉ evs := by
  have hall := (write_loop_events_shape fd nbytes sched off evs dr h).1
  rw [List.all_eq_true] at hall
  refine ⟨?_, ?_, ?_⟩
  · rw [List.countP_eq_zero]
    intro a ha
    have := hall a ha
    cases a <;> simp_all [isWrite, isDropEv, isRh]
  · rw [List.countP_eq_zero]
    intro a ha
    have := hall a ha
    cases a <;> simp_all [isWrite, isDropEv, isWh]
  · intro hmem
    have := hall _ hmem
    simp [isWrite, isDropEv] at this

/-- C1: every completed iteration of either loop body invokes the host
pipeline callback exactly once: the inbound loop invokes the read handler
`rh` exactly once whatever the control path (peer present, absent, wait
timed out, or read errored), and the outbound loop invokes the write handler
`wh` exactly once, as its first action, before checking for a peer. -/
theorem callback_once_per_iteration :
    (∀ (st : LoopSt) (env : SrcEnv) (out : SrcIterOut),
       src_iter st env = some out → out.events.countP isRh = 1) ∧
    (∀ (st : LoopSt) (env : PlayEnv) (out : PlayIterOut),
       play_iter st env = some out →
         out.events.countP isWh = 1 ∧
         ∃ rest, out.events =
           Ev.wh env.pulled :: Ev.getClient env.fd :: rest) := by
  constructor
  · intro st env out h
    unfold src_iter at h
    split at h
    · split at h
      · cases hr : read_loop env.fd (st.sampc * 2) env.reads env.buf0 0 with
        | none => rw [hr] at h; exact absurd h (by simp)
        | some ro =>
            rw [hr] at h
            cases h
            have h0 := (read_loop_no_callbacks _ _ _ _ _ _ hr).1
            simp [List.countP_cons, List.countP_append, h0, isRh]
      · cases h
        simp [List.countP_cons, isRh]
    · cases h
      simp [List.countP_cons, isRh]
  · intro st env out h
    obtain ⟨evs, dr, hw, hev, _⟩ := play_iter_shape st env out h
    have h0 : evs.countP isWh = 0 := by
      by_cases hfd : 0 ≤ env.fd
      · rw [if_pos hfd] at hw
        exact (write_loop_no_callbacks _ _ _ _ _ _ hw).2.1
      · rw [if_neg hfd] at hw
        cases hw
        simp
    constructor
    · rw [hev]
      simp [List.countP_cons, List.countP_append, h0, isWh]
    · exact ⟨_, hev⟩

theorem callback_once_per_iteration_witness :
    (src_iter ⟨1, 20⟩ ⟨[0, 0], 0, -1, 0, none, [], 50000⟩).map
      (fun o => o.events.countP isRh) = some 1 ∧
    (play_iter ⟨1, 20⟩ ⟨[8, 8], -1, [], 0, 50000⟩).map
      (fun o => o.events.countP isWh) = some 1 := by
  constructor
  · cases h : src_iter ⟨1, 20⟩ ⟨[0, 0], 0, -1, 0, none, [], 50000⟩ with
    | none => exact absurd h (by decide)
    | some out =>
        simpa using callback_once_per_iteration.1 _ _ _ h
  · cases h : play_iter ⟨1, 20⟩ ⟨[8, 8], -1, [], 0, 50000⟩ with
    | none => exact absurd h (by decide)
    | some out =>
        simpa using (callback_once_per_iteration.2 _ _ _ h).1

/-- C8: peer-level failures never reach the host pipeline.  In a completed
outbound-loop iteration: the registered error handler is never invoked; with
no peer present the pulled frame is discarded silently (no write, no drop,
no error); a write error makes the loop emit a `drop` of the peer handle and
write nothing more this iteration (the frame is abandoned, not
retransmitted); and a `drop` occurs exactly when the iteration reported an
error.  The inbound loop likewise never invokes the error handler. -/
theorem outbound_error_policy :
    (∀ (st : LoopSt) (env : PlayEnv) (out : PlayIterOut),
       play_iter st env = some out →
         Ev.errh ∉ out.events ∧
         (env.fd < 0 →
            out.events = [Ev.wh env.pulled, Ev.getClient env.fd,
              Ev.sleep (sleep_amount (st.ptime * 1000) env.next_frame
                          env.now2)] ∧
            out.dropped = false) ∧
         (out.dropped = true → Ev.drop env.fd ∈ out.events) ∧
         afterDropNoWrite out.events = true) ∧
    (∀ (st : LoopSt) (env : SrcEnv) (out : SrcIterOut),
       src_iter st env = some out → Ev.errh ∉ out.events) := by
  constructor
  · intro st env out h
    obtain ⟨evs, dr, hw, hev, hdr⟩ := play_iter_shape st env out h
    refine ⟨?_, ?_, ?_, ?_⟩
    · have hno : Ev.errh ∉ evs := by
        by_cases hfd : 0 ≤ env.fd
        · rw [if_pos hfd] at hw
          exact (write_loop_no_callbacks _ _ _ _ _ _ hw).2.2
        · rw [if_neg hfd] at hw
          cases hw
          simp
      rw [hev]
      simp [hno]
    · intro hfd
      rw [if_neg (by omega)] at hw
      cases hw
      rw [hev, hdr]
      exact ⟨rfl, rfl⟩
    · intro hdrop
      rw [hev]
      by_cases hfd : 0 ≤ env.fd
      · rw [if_pos hfd] at hw
        have hmem := ((write_loop_events_shape _ _ _ _ _ _ hw).2.1).mp
          (hdr ▸ hdrop)
        simp [hmem]
      · rw [if_neg hfd] at hw
        cases hw
        rw [hdr] at hdrop
        exact absurd hdrop (by simp)
    · rw [hev]
      show afterDropNoWrite (Ev.wh env.pulled :: Ev.getClient env.fd ::
        (evs ++ [Ev.sleep (sleep_amount (st.ptime * 1000) env.next_frame
          env.now2)])) = true
      rw [show afterDropNoWrite (Ev.wh env.pulled :: Ev.getClient env.fd ::
            (evs ++ [Ev.sleep (sleep_amount (st.ptime * 1000) env.next_frame
              env.now2)])) =
          afterDropNoWrite (evs ++ [Ev.sleep (sleep_amount (st.ptime * 1000)
            env.next_frame env.now2)]) from rfl]
      by_cases hfd : 0 ≤ env.fd
      · rw [if_pos hfd] at hw
        exact write_phase_afterDrop _ _ _ _ _ _ _ hw (by simp [isWrite])
      · rw [if_neg hfd] at hw
        cases hw
        simp [afterDropNoWrite, isWrite]
  · intro st env out h
    unfold src_iter at h
    split at h
    · split at h
      · cases hr : read_loop env.fd (st.sampc * 2) env.reads env.buf0 0 with
        | none => rw [hr] at h; exact absurd h (by simp)
        | some ro =>
            rw [hr] at h
            cases h
            have hno : Ev.errh ∉ ro.events :=
              (read_loop_no_callbacks _ _ _ _ _ _ hr).2.2
            simp [hno]
      · cases h
        intro hmem
        simp at hmem
    · cases h
      intro hmem
      simp at hmem

theorem outbound_error_policy_witness :
    (play_iter ⟨1, 20⟩ ⟨[8, 8], 5, [-1], 0, 50000⟩).map
      (fun o => o.dropped) = some true ∧
    (play_iter ⟨1, 20⟩ ⟨[8, 8], 5, [-1], 0, 50000⟩).map
      (fun o => decide (Ev.drop 5 ∈ o.events)) = some true ∧
    (play_iter ⟨1, 20⟩ ⟨[8, 8], 5, [-1], 0, 50000⟩).map
      (fun o => decide (Ev.errh ∈ o.events)) = some false ∧
    (play_iter ⟨1, 20⟩ ⟨[8, 8], 5, [-1], 0, 50000⟩).map
      (fun o => afterDropNoWrite o.events) = some true := by
  cases h : play_iter ⟨1, 20⟩ ⟨[8, 8], 5, [-1], 0, 50000⟩ with
  | none => exact absurd h (by decide)
  | some out =>
      have hmain := (outbound_error_policy.1 _ _ _ h)
      have hdr : out.dropped = true := by
        have h2 : (play_iter ⟨1, 20⟩ ⟨[8, 8], 5, [-1], 0, 50000⟩).map
            (fun o => o.dropped) = some true := by decide
        rw [h] at h2
        simpa using h2
      refine ⟨by simpa using hdr, ?_, ?_, by simpa using hmain.2.2.2⟩
      · simpa using hmain.2.2.1 hdr
      · simp [hmain.1]

/-- `poll` blocks at most its timeout. -/
theorem poll_model_le (timeout_ms : Nat) (dataAfter : Option Nat) :
    (poll_model timeout_ms dataAfter).2 ≤ timeout_ms * 1000 := by
  unfold poll_model
  cases dataAfter with
  | none => exact le_refl _
  | some t =>
      by_cases ht : t ≤ timeout_ms * 1000
      · simpa [ht]
      · simp [ht]

/-- C7 counterexample: the claim that an inbound iteration's total blocked
reading time is bounded by the timeout to the next frame deadline fails on
this concrete input.  A peer is present, the deadline is 20000 µs away (so
the timeout handed to `poll` is 20 ms), `poll` returns immediately, the
first `read` delivers one byte of the 4-byte frame, and the second blocking
`read` returns only after 1000000000 µs: the completed iteration spent
1000000000 µs blocked in `read`, far beyond the 20000 µs remaining to the
deadline. -/
theorem read_block_unbounded_cex :
    src_timeout_ms 20000 0 = 20 ∧
    (src_iter ⟨2, 20⟩
        ⟨[9, 9, 9, 9], 20000, 0, 0, some 0,
          [⟨0, some [1]⟩, ⟨1000000000, some [2, 3, 4]⟩], 1000000100⟩).map
      (fun o => o.blockedRead) = some 1000000000 ∧
    ¬ (1000000000 ≤ 20000 - 0) := by
  refine ⟨by decide, by decide, by decide⟩

/-- C7 amended: only the wait-for-readability step is bounded by the time
remaining to the next frame deadline — in every completed inbound iteration
the time spent blocked in `poll` is at most `next_frame - now` (and at most
the millisecond timeout handed to `poll`).  The blocking `read` calls that
assemble the frame after data first arrives carry no such bound (see the
counterexample): a peer that delivers part of a frame and then stalls can
block the iteration past the deadline. -/
theorem poll_wait_bounded (st : LoopSt) (env : SrcEnv) (out : SrcIterOut)
    (h : src_iter st env = some out) :
    out.pollWait ≤ src_timeout_ms env.next_frame env.now1 * 1000 ∧
    out.pollWait ≤ env.next_frame - env.now1 := by
  have hle : src_timeout_ms env.next_frame env.now1 * 1000 ≤
      env.next_frame - env.now1 := by
    unfold src_timeout_ms
    split
    · exact Nat.div_mul_le_self _ _
    · omega
  have hp : out.pollWait ≤ src_timeout_ms env.next_frame env.now1 * 1000 := by
    unfold src_iter at h
    split at h
    · split at h
      · cases hr : read_loop env.fd (st.sampc * 2) env.reads env.buf0 0 with
        | none => rw [hr] at h; exact absurd h (by simp)
        | some ro =>
            rw [hr] at h
            cases h
            exact poll_model_le _ _
      · cases h
        exact poll_model_le _ _
    · cases h
      exact Nat.zero_le _
  exact ⟨hp, le_trans hp hle⟩

theorem poll_wait_bounded_witness :
    (src_iter ⟨2, 20⟩ ⟨[9, 9, 9, 9], 20000, 0, 0, none, [], 25000⟩).map
      (fun o => decide (o.pollWait ≤ 20000 - 0)) = some true := by
  cases h : src_iter ⟨2, 20⟩ ⟨[9, 9, 9, 9], 20000, 0, 0, none, [], 25000⟩ with
  | none => exact absurd h (by decide)
  | some out => simpa using (poll_wait_bounded _ _ _ h).2

/-- C9: both allocators size the frame buffer as
`srate * ch * ptime / 1000` samples (C integer arithmetic); with the fixed
channel count 1 this is `sample_rate * frame_period_ms / 1000`, which is 160
samples at 8000 Hz / 20 ms; and a completed inbound iteration never changes
the frame buffer's byte length (`sampc * sizeof(int16_t)`), so the length is
fixed across the loop's lifetime. -/
theorem frame_buffer_length (srate ch ptime : Nat) (hch : ch = 1) :
    alloc_sampc srate ch ptime = srate * ptime / 1000 ∧
    alloc_sampc 8000 1 20 = 160 ∧
    (∀ (st : LoopSt) (env : SrcEnv) (out : SrcIterOut),
       src_iter st env = some out → env.buf0.length = st.sampc * 2 →
         out.buf.length = st.sampc * 2) := by
  refine ⟨by rw [hch]; simp [alloc_sampc], by decide, ?_⟩
  intro st env out h hlen
  unfold src_iter at h
  split at h
  · split at h
    · cases hr : read_loop env.fd (st.sampc * 2) env.reads env.buf0 0 with
      | none => rw [hr] at h; exact absurd h (by simp)
      | some ro =>
          rw [hr] at h
          cases h
          exact read_loop_length _ _ _ _ _ _ hlen (Nat.zero_le _) hr
    · cases h
      simp
  · cases h
    simp

theorem frame_buffer_length_witness :
    alloc_sampc 8000 1 20 = 8000 * 20 / 1000 ∧ alloc_sampc 8000 1 20 = 160 :=
  ⟨(frame_buffer_length 8000 1 20 rfl).1, (frame_buffer_length 8000 1 20 rfl).2.1⟩
